import Mathlib

/-!
Verification development for the FAST-LTS array-processing core
(`lts_array/fast_lts_array.py`).

The numeric pipeline of the source operates on IEEE doubles; it is embedded
here over an arbitrary `LinearOrderedField` (instantiated at `ℚ` for concrete
evaluation and at `ℝ` for the full pipeline, where `np.sqrt` is `Real.sqrt`;
`np.sqrt` is threaded through the generic definitions as an explicit function
parameter `sqrtF`).  The external LAPACK least-squares kernel (`np.linalg.qr`
composed with `scipy.linalg.lstsq`) is deterministic and is modelled as an
explicit function parameter `fit`; a `none` result models a non-finite
(inf/nan) solver output, which is what the source tests for with
`z[0,0] == np.inf` (line 159) and `np.isfinite(z[0])` (line 166).  When the
source uses such a non-finite solver result without a check (inside the
C-steps and in the reweighting refit), the model totalises with a default
vector; no claim settled here depends on that case.

Helper functions of the package that live in `flts_helper_array` (not part of
the sources at hand) are modelled from the specification; each such definition
carries a doc comment starting with `Modelled from the spec:`.
-/

namespace LtsArray

open List

/-! ## Result decoder (source lines 283-289)

`vel = 1/np.linalg.norm(s_p, 2)` and
`az = (np.arctan2(s_p[0], s_p[1])*180/np.pi - 360) % 360`.

Float division `1/x` for `x ≥ 0` yields `+inf` at `x = 0`; this is modelled
by an `EReal`-valued reciprocal.  `numpy.arctan2(x, y)` is the argument of
the complex number `y + x*I` with range `(-π, π]`, which is `Complex.arg`.
The float modulus `a % b` of numpy is `a - b * ⌊a / b⌋`. -/

/-- Euclidean norm of a coefficient vector, `np.linalg.norm(s_p, 2)`. -/
noncomputable def norm2 (l : List ℝ) : ℝ :=
  Real.sqrt ((l.map fun v => v ^ 2).sum)

/-- Float reciprocal `1/x` for a nonnegative float `x`: `+inf` at `x = 0`. -/
noncomputable def npRecip (x : ℝ) : EReal :=
  if x = 0 then ⊤ else ((1 / x : ℝ) : EReal)

/-- numpy `arctan2(a, b)`: the angle of the point `(b, a)` in `(-π, π]`. -/
noncomputable def arctan2 (a b : ℝ) : ℝ :=
  Complex.arg ⟨b, a⟩

/-- numpy float modulus: `a % b = a - b * ⌊a / b⌋` (sign of the divisor). -/
noncomputable def npFmod (a b : ℝ) : ℝ :=
  a - b * ⌊a / b⌋

/-- Source line 284: `vel = 1/np.linalg.norm(s_p, 2)` (unguarded division). -/
noncomputable def decodeVel (s : List ℝ) : EReal :=
  npRecip (norm2 s)

/-- Source line 287:
`az = (np.arctan2(s_p[0], s_p[1])*180/np.pi - 360) % 360`. -/
noncomputable def decodeBaz (s : List ℝ) : ℝ :=
  npFmod (arctan2 (s.getD 0 0) (s.getD 1 0) * 180 / Real.pi - 360) 360

/-! ## Generic linear-algebra and sorting primitives -/

variable {α : Type} [LinearOrderedField α]

/-- Dot product of two coefficient lists. -/
def dot (a b : List α) : α :=
  ((a.zip b).map fun pr => pr.1 * pr.2).sum

/-- Matrix-vector product `X @ z` on a row-list matrix. -/
def matVec (M : List (List α)) (z : List α) : List α :=
  M.map fun row => dot row z

/-- Componentwise difference of two vectors. -/
def listSub (a b : List α) : List α :=
  (a.zip b).map fun pr => pr.1 - pr.2

/-- Residual vector `y - X @ z` (source lines 167 and 179). -/
def residualsOf (X : List (List α)) (y z : List α) : List α :=
  listSub y (matVec X z)

/-- Componentwise absolute value, `np.abs`. -/
def absList (r : List α) : List α :=
  r.map fun v => |v|

/-- Comparison of index/value pairs by value; the key order used by
`np.argsort` on the residual magnitudes. -/
def sndLe (a b : ℕ × α) : Prop :=
  a.2 ≤ b.2

instance : DecidableRel (@sndLe α _) :=
  fun a b => inferInstanceAs (Decidable (a.2 ≤ b.2))

instance : IsTotal (ℕ × α) sndLe :=
  ⟨fun a b => le_total a.2 b.2⟩

instance : IsTrans (ℕ × α) sndLe :=
  ⟨fun _ _ _ h1 h2 => le_trans h1 h2⟩

/-- `np.argsort(np.abs(residu), kind='mergesort')` (source lines 171-173):
indices of the residuals in order of increasing magnitude (stable). -/
def argsortAbs (r : List α) : List ℕ :=
  (((absList r).enum).insertionSort sndLe).map Prod.fst

/-- `obs_in_set` (source lines 174-175): the `h` indices of smallest
absolute residual, sorted ascending. -/
def obsInSet (hsz : ℕ) (r : List α) : List ℕ :=
  ((argsortAbs r).take hsz).insertionSort (· ≤ ·)

/-- The trimmed objective of source lines 180-182: sort the absolute
residuals, keep the `h` smallest, sum their squares. -/
def trimObj (hsz : ℕ) (X : List (List α)) (y z : List α) : α :=
  ((((absList (residualsOf X y z)).insertionSort (· ≤ ·)).take hsz).map fun v => v ^ 2).sum

/-- Sum of squared residuals of `w` over an index set `H`; the quantity the
least-squares refit on the rows `H` minimises over `w`. -/
def sumSqResAt (X : List (List α)) (y : List α) (H : List ℕ) (w : List α) : α :=
  (H.map fun i => ((residualsOf X y w).getD i 0) ^ 2).sum

/-- The external least-squares kernel `np.linalg.qr` + `scipy.linalg.lstsq`:
rows and right-hand side in, coefficients out; `none` models a non-finite
solver output. -/
abbrev Fit (α : Type) :=
  List (List α) → List α → Option (List α)

/-- One C-step refit (source lines 171-178): select the `h` rows of smallest
absolute residual under `z` and least-squares fit on them.  A non-finite
solver output is totalised with a zero vector (the source carries NaN). -/
def cstepFit (fit : Fit α) (hsz : ℕ) (X : List (List α)) (y z : List α) : List α :=
  let H := obsInSet hsz (residualsOf X y z)
  (fit (H.map fun i => X.getD i []) (H.map fun i => y.getD i 0)).getD
    (List.replicate (X.headD []).length 0)

/-! ## Error taxonomy

The constructors carry the specification's error taxonomy (§7):
`rowMismatch`/`notColumn` are the source's `IndexError`s (spec ShapeError),
`badN` is the source's `ValueError` for `n ≤ 2p` (spec ShapeError),
`alphaOutOfRange` is the spec's DomainError (the range check is attributed
to `hcalc`, see below).  `fuelExhausted` is NOT a source exception: it marks
that a run of the unbounded redraw loop (source lines 159-164) has not
terminated within the modelling fuel, or that no finite candidate exists. -/
inductive LtsErr where
  | rowMismatch
  | notColumn
  | badN
  | alphaOutOfRange
  | fuelExhausted
deriving DecidableEq

/-- Boolean success test on an `Except` result. -/
def isOkE {ε β : Type} : Except ε β → Bool
  | .ok _ => true
  | .error _ => false

/-- The numeric fields of the result dictionary `Res` (source lines
218-281): coefficients, scale, flagged weights, fitted, residuals,
rsquared, and the echoed inputs.  (`sigma_tau` is the constant NaN and is
omitted; velocity/bazimuth are attached by the real-valued decoder.) -/
structure NumRes (α : Type) where
  coefficients : List α
  scale : α
  flagged : List Bool
  fitted : List α
  residuals : List α
  rsquared : α
  Xout : List (List α)
  yout : List α

/-- The validated and standardized working data (source lines 71-112):
shapes, subset size `h`, the robust column scales `datamad`, standardized
copies `Xs`/`ys`, the original data, and whether the degenerate-column
warning of line 109 fired. -/
structure Prep (α : Type) where
  n : ℕ
  p : ℕ
  hsize : ℕ
  alpha : ℚ
  eps : α
  datamad : List α
  Xs : List (List α)
  ys : List α
  xorig : List (List α)
  yorig : List α
  madWarning : Bool

/-- numpy median of a list of values (column, axis 0): middle of the sorted
values, or the mean of the two middle values for even length. -/
def npMedian (l : List α) : α :=
  let s := l.insertionSort (· ≤ ·)
  if l.length % 2 = 1 then s.getD (l.length / 2) 0
  else (s.getD (l.length / 2 - 1) 0 + s.getD (l.length / 2) 0) / 2

/-- Modelled from the spec: `flts_helper_array.hcalc` is not among the
sources at hand.  Per §3/§4.1 it maps `(alpha, n, p)` to the subset size `h`
with `p < h ≤ n`, `h` non-decreasing in `alpha` and `h/n ≈ alpha`
(`alpha = 1` gives `h = n`). -/
def hcalc (alpha : ℚ) (n p : ℕ) : ℕ :=
  min n (max (p + 1) (alpha * n).ceil.toNat)

/-- Column `i` of the row-list matrix `X`. -/
def colOfX (M : List (List α)) (i : ℕ) : List α :=
  M.map fun row => row.getD i 0

/-- The robust scale of one column of the concatenated data (source lines
103-109): `1.4826 ×` median absolute value, with the
`1.2533 × mean-absolute-value` fallback when that is below `eps`; the
returned flag records whether the fallback is still below `eps`, in which
case the source only prints `'ERROR: The MAD of some variable is zero!'`
and continues. -/
def madCol (eps : α) (n : ℕ) (col : List α) : α × Bool :=
  let m := (14826 / 10000 : α) * npMedian (absList col)
  if |m| ≤ eps then
    let m2 := (12533 / 10000 : α) * ((absList col).sum / (n : α))
    (m2, decide (|m2| ≤ eps))
  else (m, false)

/-- Validation data after the shape checks pass (source lines 71-112):
`h` from `hcalc`, `eps` from `p` (lines 91-96), per-column robust scales,
and the standardized copies `Xvar/yvar` (lines 110-112). -/
def prepareData (X y : List (List α)) (alpha : ℚ) : Prep α :=
  let n := X.length
  let p := (X.headD []).length
  let eps : α := if p < 5 then 1 / 10 ^ 12 else if p ≤ 18 then 1 / 10 ^ 14 else 1 / 10 ^ 16
  let yflat := y.map fun row => row.getD 0 0
  let cols := ((List.range p).map fun i => colOfX X i) ++ [yflat]
  let mads := cols.map (madCol eps n)
  let datamad := mads.map Prod.fst
  let warn := mads.any Prod.snd
  let Xs := X.map fun row => (List.range p).map fun i => row.getD i 0 / datamad.getD i 1
  let ys := yflat.map fun v => v / datamad.getD p 1
  ⟨n, p, hcalc alpha n p, alpha, eps, datamad, Xs, ys, X, yflat, warn⟩

/-- Input validation and standardization (source lines 71-112).  The three
shape checks are the source's lines 74-79 in order.  The `alpha` range
check is Modelled from the spec: §4.1 requires `alpha ∈ [0.5, 1.0]` to be
rejected with a DomainError, and the only validator piece outside the
sources at hand is `flts_helper_array.hcalc` (called at line 89, before any
fit); the check is therefore attributed to it here. -/
def prepare (X y : List (List α)) (alpha : ℚ) : Except LtsErr (Prep α) :=
  if X.length ≠ y.length then .error .rowMismatch
  else if (y.headD []).length ≠ 1 then .error .notColumn
  else if X.length ≤ 2 * (X.headD []).length then .error .badN
  else if alpha < 1 / 2 ∨ 1 < alpha then .error .alphaOutOfRange
  else .ok (prepareData X y alpha)

/-- Transform the coefficients found on standardized data back to the
original scale (source lines 202-207).  Line 207 multiplies
`coeffs[p-1]` by `datamad[p-1]/datamad[p-1]`, a float no-op that is NaN
when that scale is zero; it is transcribed as written. -/
def unstandardize (pd : Prep α) (z : List α) : List α :=
  if pd.p ≤ 1 then
    [z.getD 0 0 * pd.datamad.getD pd.p 1 / pd.datamad.getD 0 1]
  else
    let c := (List.range pd.p).map fun i =>
      z.getD i 0 * pd.datamad.getD pd.p 1 / pd.datamad.getD i 1
    c.set (pd.p - 1)
      (c.getD (pd.p - 1) 0 * (pd.datamad.getD (pd.p - 1) 1 / pd.datamad.getD (pd.p - 1) 1))

/-- The residuals of the accepted coefficients on the original data
(source lines 221-223). -/
def postResiduals (pd : Prep α) (coeffs : List α) : List α :=
  listSub pd.yorig (matVec pd.xorig coeffs)

/-- Modelled from the spec: `flts_helper_array.rawcorfactorlts` is not among
the sources at hand; per §4.7/§9 it is a consistency correction factor of
`(p, intercept, n, alpha)` with a closed form from the literature.  No claim
settled here depends on its value; it is modelled as `1`. -/
def rawcorfactorlts (p intercept n : ℕ) (alpha : ℚ) : α :=
  1

/-- Modelled from the spec: `flts_helper_array.rawconsfactorlts` (small
sample correction factor of `(h, n)`), as `rawcorfactorlts`. -/
def rawconsfactorlts (hsz n : ℕ) : α :=
  1

/-- Modelled from the spec: `flts_helper_array.rewcorfactorlts` (reweighted
consistency correction factor), as `rawcorfactorlts`. -/
def rewcorfactorlts (p intercept n : ℕ) (alpha : ℚ) : α :=
  1

/-- Modelled from the spec: `flts_helper_array.rewconsfactorlts` (reweighted
small sample correction factor), as `rawcorfactorlts`. -/
def rewconsfactorlts (w : List Bool) (n p : ℕ) : α :=
  1

/-- Modelled from the spec: `flts_helper_array.qnorm(0.9875)`, the standard
normal quantile used for the inlier flags (§4.8); its float value
`≈ 2.2414` is modelled by a rational approximation. -/
def qnorm09875 : ℚ :=
  22414 / 10000

/-- The corrected raw scale estimate `s0` (source lines 225-229):
`sqrt((1/h) * sum of the h smallest squared residuals)` times the two raw
correction factors. -/
def rawScale (sqrtF : α → α) (pd : Prep α) (residuals : List α) : α :=
  let sor := (residuals.map fun v => v ^ 2).insertionSort (· ≤ ·)
  sqrtF ((1 / (pd.hsize : α)) * (sor.take pd.hsize).sum) *
    (rawcorfactorlts pd.p 0 pd.n pd.alpha * rawconsfactorlts pd.hsize pd.n)

/-- The reweighting inlier flags (source line 242):
`np.abs(residuals/s0) <= quantile`. -/
def rewWeights (s0 : α) (residuals : List α) : List Bool :=
  residuals.map fun r => decide (|r / s0| ≤ ((qnorm09875 : ℚ) : α))

/-- `weights * 1` (source line 244): 0/1 numeric weights. -/
def weights01 (w : List Bool) : List α :=
  w.map fun b => if b then 1 else 0

/-- The denominator `np.sum(weights2) - 1` of the reweighted scale
(source line 257).  The source divides by it with no guard. -/
def rewDenom (w : List Bool) : α :=
  (weights01 w).sum - 1

/-- Rows of `M` at the true positions of the mask (source `xvar[weights, :]`). -/
def maskRows (M : List (List α)) (w : List Bool) : List (List α) :=
  ((M.zip w).filter fun pr => pr.2).map Prod.fst

/-- Entries of `v` at the true positions of the mask (source `yvar[weights]`). -/
def maskVec (v : List α) (w : List Bool) : List α :=
  ((v.zip w).filter fun pr => pr.2).map Prod.fst

/-- `rsquared` (source lines 265-274): `1 - s1/sh` clamped to `[0, 1]`,
where `s1` sums the `h` smallest squared residuals.  Note that line 267
sorts `yvar**2` along its last axis, which on the `(n,1)` column is the
identity, so `sh` sums the FIRST `h` squared responses, unsorted; this is
transcribed as the source computes it. -/
def rsquaredOf (pd : Prep α) (residuals : List α) : α :=
  let s1 := (((residuals.map fun v => v ^ 2).insertionSort (· ≤ ·)).take pd.hsize).sum
  let sh := ((pd.yorig.map fun v => v ^ 2).take pd.hsize).sum
  let r := 1 - s1 / sh
  if 1 < r then 1 else if r < 0 then 0 else r

/-- The reweighting branch (source lines 241-262): flag inliers by the
0.9875 normal quantile, refit by least squares on the flagged rows,
recompute the scale dividing by `sum(weights2) - 1` (unguarded), apply the
reweighted correction factors, and re-flag with the `2.5` tolerance. -/
def reweightStep (sqrtF : α → α) (fit : Fit α) (pd : Prep α) (residuals : List α) (s0 : α) :
    NumRes α :=
  let weights := rewWeights s0 residuals
  let zfinal := (fit (maskRows pd.xorig weights) (maskVec pd.yorig weights)).getD
    (List.replicate pd.p 0)
  let fitted := matVec pd.xorig zfinal
  let residuals2 := listSub pd.yorig fitted
  let w2 := weights01 weights
  let scale := sqrtF (((w2.zip residuals2).map fun pr => (pr.1 * pr.2) ^ 2).sum / rewDenom weights) *
    (rewcorfactorlts pd.p 0 pd.n pd.alpha * rewconsfactorlts weights pd.n pd.p)
  let flagged := residuals2.map fun r => decide (|r / scale| ≤ (5 / 2 : α))
  ⟨zfinal, scale, flagged, fitted, residuals2, rsquaredOf pd residuals2, pd.xorig, pd.yorig⟩

/-- Post-processing of the accepted (already unstandardized) coefficients
(source lines 220-274): compute the raw residuals and the corrected raw
scale `s0`; if `|s0| < 1e-7` take the exact-fit branch (lines 231-238:
scale reported as `0`, weights the indicator of `|residual| < 1e-7`, no
reweighting), else the reweighting branch (lines 241-262). -/
def postProcess (sqrtF : α → α) (fit : Fit α) (pd : Prep α) (coeffs : List α) : NumRes α :=
  let fitted := matVec pd.xorig coeffs
  let residuals := postResiduals pd coeffs
  let s0 := rawScale sqrtF pd residuals
  if |s0| < 1 / 10 ^ 7 then
    let weights := residuals.map fun r => decide (|r| < (1 / 10 ^ 7 : α))
    ⟨coeffs, 0, weights, fitted, residuals, rsquaredOf pd residuals, pd.xorig, pd.yorig⟩
  else reweightStep sqrtF fit pd residuals s0

/-- Modelled from the spec: `flts_helper_array.least_squares_fit` is not
among the sources at hand.  Per §4.2 the `alpha = 1` path performs one
ordinary least squares fit over all `n` points and returns with all `n`
weights true and the scale derived from the OLS residuals, in the same
output schema as the general path. -/
def least_squares_fit (sqrtF : α → α) (fit : Fit α) (pd : Prep α) : NumRes α :=
  let z := (fit pd.Xs pd.ys).getD (List.replicate pd.p 0)
  let coeffs := unstandardize pd z
  let fitted := matVec pd.xorig coeffs
  let residuals := listSub pd.yorig fitted
  let scale := sqrtF ((residuals.map fun v => v ^ 2).sum / ((pd.n : α) - 1))
  ⟨coeffs, scale, List.replicate pd.n true, fitted, residuals,
    rsquaredOf pd residuals, pd.xorig, pd.yorig⟩

/-- Modelled from the spec: `flts_helper_array.randomset` is not among the
sources at hand.  Per §4.3/§9 it draws `p` distinct indices out of `n`
deterministically from an explicit seed and advances the seed per draw. -/
def randomset (n p seed : ℕ) : List ℕ × ℕ :=
  ((List.range p).map fun i => (seed + i) % n, seed + 1)

/-- The redraw loop of source lines 158-164: draw an elemental subset and
solve it exactly, redrawing while the solver output is non-finite.  The
source loop is UNBOUNDED (`while z[0,0] == np.inf`); the model adds fuel,
and `none` means the loop has not exited within that fuel. -/
def drawLoop (fit : Fit α) (Xs : List (List α)) (ys : List α) (n p : ℕ) :
    ℕ → ℕ → Option (List α × ℕ)
  | 0, _ => none
  | fuel + 1, seed =>
    let rs := randomset n p seed
    match fit (rs.1.map fun i => Xs.getD i []) (rs.1.map fun i => ys.getD i 0) with
    | some z => some (z, rs.2)
    | none => drawLoop fit Xs ys n p fuel rs.2

/-- The C-step loop of source lines 169-185, with the early exit
`(jj >= 1) and (obj == prevobj)`; the flag records `jj ≥ 1`. -/
def cstepLoop [DecidableEq α] (fit : Fit α) (hsz : ℕ) (X : List (List α)) (y : List α) :
    ℕ → Bool → α → List α → List α × α
  | 0, _, prevobj, z => (z, prevobj)
  | fuel + 1, chk, prevobj, z =>
    let z2 := cstepFit fit hsz X y z
    let obj := trimObj hsz X y z2
    if chk = true ∧ obj = prevobj then (z2, obj)
    else cstepLoop fit hsz X y fuel true obj z2

/-- A pool of (objective, coefficients) candidates. -/
abbrev Pool (α : Type) :=
  List (α × List α)

/-- Comparison of candidates by objective. -/
def fstLe (a b : α × List α) : Prop :=
  a.1 ≤ b.1

instance : DecidableRel (@fstLe α _) :=
  fun a b => inferInstanceAs (Decidable (a.1 ≤ b.1))

/-- Modelled from the spec: `flts_helper_array.insertion` is not among the
sources at hand.  Per §4.5 the candidate pool keeps the ≤10
lowest-objective distinct pairs in ascending objective order, evicting the
current worst on improvement and not reinserting equal-objective
duplicates. -/
def insertion [DecidableEq α] (pool : Pool α) (obj : α) (z : List α) : Pool α :=
  if pool.any fun e => decide (e.1 = obj) then pool
  else (((obj, z) :: pool).insertionSort fstLe).take 10

/-- One coarse-phase trial (source lines 147-191 with `final = 0`):
draw and solve an elemental subset, run `csteps1 = 4` C-steps, insert the
local optimum into the pool.  `Except.error ()` records that the redraw
loop did not terminate; it absorbs all later trials (the source would
simply never leave the loop). -/
def coarseStep [DecidableEq α] (fit : Fit α) (fuel hsz : ℕ) (Xs : List (List α)) (ys : List α)
    (st : Except Unit (Pool α × ℕ)) : Except Unit (Pool α × ℕ) :=
  match st with
  | .error u => .error u
  | .ok ps =>
    match drawLoop fit Xs ys Xs.length (Xs.headD []).length fuel ps.2 with
    | none => .error ()
    | some zs =>
      let r := cstepLoop fit hsz Xs ys 4 false 0 zs.1
      .ok (insertion ps.1 r.2 r.1, zs.2)

/-- The coarse-phase trial loop, `for ii in range(0, nsamp)`. -/
def coarseLoop [DecidableEq α] (fit : Fit α) (fuel hsz : ℕ) (Xs : List (List α)) (ys : List α) :
    ℕ → Except Unit (Pool α × ℕ) → Except Unit (Pool α × ℕ)
  | 0, st => st
  | k + 1, st => coarseLoop fit fuel hsz Xs ys k (coarseStep fit fuel hsz Xs ys st)

/-- The full coarse phase: `ntrial = 500` trials from the constant initial
seed `0` (source lines 63-65). -/
def coarsePhase [DecidableEq α] (fit : Fit α) (fuel hsz : ℕ) (Xs : List (List α)) (ys : List α) :
    Except Unit (Pool α × ℕ) :=
  coarseLoop fit fuel hsz Xs ys 500 (.ok ([], 0))

/-- The C-step budget of the final phase (source lines 139-144). -/
def finalCsteps (n p : ℕ) : ℕ :=
  if n * p ≤ 100000 then 100
  else if n * p ≤ 1000000 then 10 - ((n * p + 99999) / 100000 - 2)
  else 1

/-- The final phase (source lines 136-146 and 150-194): refine each pooled
candidate with the longer C-step budget and keep the lowest objective;
`none` for an empty pool (the source would carry NaN coefficients). -/
def finalPhase [DecidableEq α] (fit : Fit α) (hsz : ℕ) (Xs : List (List α)) (ys : List α)
    (n p : ℕ) (pool : Pool α) : Option (List α × α) :=
  (pool.take (if 5000 < n then 1 else 10)).foldl
    (fun best c =>
      let r := cstepLoop fit hsz Xs ys (finalCsteps n p) false 0 c.2
      match best with
      | none => some r
      | some b => if r.2 < b.2 then some r else some b)
    none

/-- The search phases followed by post-processing: coarse phase into the
candidate pool, final phase, unstandardize the best candidate and
post-process it. -/
def searchAndPost [DecidableEq α] (sqrtF : α → α) (fit : Fit α) (fuel : ℕ) (pd : Prep α) :
    Except LtsErr (NumRes α) :=
  match coarsePhase fit fuel pd.hsize pd.Xs pd.ys with
  | .error _ => .error .fuelExhausted
  | .ok ps =>
    match finalPhase fit pd.hsize pd.Xs pd.ys pd.n pd.p ps.1 with
    | none => .error .fuelExhausted
    | some best => .ok (postProcess sqrtF fit pd (unstandardize pd best.1))

/-- The whole numeric pipeline of `fast_lts_array` over a generic field:
validate and standardize, take the `alpha == 1.00` OLS shortcut (source
lines 129-132), otherwise search (coarse phase into candidate pool, final
phase) and post-process the best candidate. -/
def runNumeric [DecidableEq α] (sqrtF : α → α) (fit : Fit α) (fuel : ℕ)
    (X y : List (List α)) (alpha : ℚ) : Except LtsErr (NumRes α) :=
  match prepare X y alpha with
  | .error e => .error e
  | .ok pd =>
    if alpha = 1 then .ok (least_squares_fit sqrtF fit pd)
    else searchAndPost sqrtF fit fuel pd

/-- Concrete validated data used to exercise the exact-fit branch: `n = 3`,
`p = 1`, `h = 2`, unit column scales, and `y = X` so that the slope-one fit
is exact. -/
def pd4c : Prep ℚ :=
  ⟨3, 1, 2, 3 / 4, 1 / 10 ^ 12, [1, 1], [[1], [2], [3]], [1, 2, 3],
    [[1], [2], [3]], [1, 2, 3], false⟩

/-- Concrete validated data used to exercise the reweighting branch with a
single inlier: `n = 3`, `p = 1`, `h = 2`, unit column scales, responses
`[0, 1/2, 5]` so that under the zero fit only the first standardized
residual passes the quantile test. -/
def pd9c : Prep ℚ :=
  ⟨3, 1, 2, 3 / 4, 1 / 10 ^ 12, [1, 1], [[1], [2], [3]], [0, 1 / 2, 5],
    [[1], [2], [3]], [0, 1 / 2, 5], false⟩

/-- The full `fast_lts_array` call over the reals: the numeric pipeline
with `np.sqrt = Real.sqrt`, with the velocity/back-azimuth decoding of
source lines 283-289 attached.  The internal seed policy is the constant
seed `0` of source line 63, threaded explicitly through every draw. -/
noncomputable def fast_lts_array (fit : Fit ℝ) (fuel : ℕ) (X y : List (List ℝ)) (alpha : ℚ) :
    Except LtsErr (NumRes ℝ × EReal × ℝ) :=
  (runNumeric Real.sqrt fit fuel X y alpha).map fun r =>
    (r, decodeVel r.coefficients, decodeBaz r.coefficients)

/-! ## Decoder lemmas and claims C3, C10 -/

theorem npFmod_eq_fract (a : ℝ) : npFmod a 360 = 360 * Int.fract (a / 360) := by
  unfold npFmod Int.fract
  field_simp

theorem npFmod_nonneg (a : ℝ) : 0 ≤ npFmod a 360 := by
  rw [npFmod_eq_fract]
  exact mul_nonneg (by norm_num) (Int.fract_nonneg _)

theorem npFmod_lt (a : ℝ) : npFmod a 360 < 360 := by
  rw [npFmod_eq_fract]
  have h := Int.fract_lt_one (a / 360)
  nlinarith

/-- Claim C3: for a final coefficient vector `(sx, sy)` (nonzero, as produced
by a successful call), the returned velocity is `1 / ‖(sx, sy)‖₂` and the
returned back-azimuth is `(arctan2 sx sy` in degrees `- 360) mod 360`, a
value in `[0, 360)`. -/
theorem decode_velocity_bazimuth (sx sy : ℝ) (h : sx ≠ 0 ∨ sy ≠ 0) :
    decodeVel [sx, sy] = ((1 / Real.sqrt (sx ^ 2 + sy ^ 2) : ℝ) : EReal) ∧
    decodeBaz [sx, sy] = npFmod (arctan2 sx sy * 180 / Real.pi - 360) 360 ∧
    0 ≤ decodeBaz [sx, sy] ∧ decodeBaz [sx, sy] < 360 := by
  have hsum : 0 < sx ^ 2 + sy ^ 2 := by
    rcases h with h | h
    · have : 0 < sx ^ 2 := by positivity
      nlinarith [sq_nonneg sy]
    · have : 0 < sy ^ 2 := by positivity
      nlinarith [sq_nonneg sx]
  have hnorm : norm2 [sx, sy] = Real.sqrt (sx ^ 2 + sy ^ 2) := by
    unfold norm2
    simp
  have hne : Real.sqrt (sx ^ 2 + sy ^ 2) ≠ 0 := by
    have := Real.sqrt_pos.mpr hsum
    exact ne_of_gt this
  refine ⟨?_, ?_, ?_, ?_⟩
  · unfold decodeVel npRecip
    rw [hnorm, if_neg hne]
  · unfold decodeBaz
    simp
  · exact npFmod_nonneg _
  · exact npFmod_lt _

theorem decode_velocity_bazimuth_witness :
    ((3 : ℝ) ≠ 0 ∨ (4 : ℝ) ≠ 0) ∧
    (decodeVel [(3 : ℝ), 4] = ((1 / Real.sqrt (3 ^ 2 + 4 ^ 2) : ℝ) : EReal) ∧
     decodeBaz [(3 : ℝ), 4] = npFmod (arctan2 3 4 * 180 / Real.pi - 360) 360 ∧
     0 ≤ decodeBaz [(3 : ℝ), 4] ∧ decodeBaz [(3 : ℝ), 4] < 360) :=
  ⟨Or.inl three_ne_zero, decode_velocity_bazimuth 3 4 (Or.inl three_ne_zero)⟩

/-- Claim C10: with an all-zero coefficient vector the decoder performs the
division `1 / ‖coefficients‖₂` with denominator `0` unguarded, and the
returned velocity is the infinite float value (modelled by `⊤ : EReal`)
rather than an error. -/
theorem zero_coeffs_infinite_velocity :
    decodeVel [(0 : ℝ), 0] = ⊤ := by
  have hnorm : norm2 [(0 : ℝ), 0] = 0 := by
    unfold norm2
    simp
  unfold decodeVel npRecip
  rw [hnorm, if_pos rfl]

/-! ## Sorted-sum lemmas for the C-step monotonicity (claim C1) -/

theorem subperm_map {β γ : Type} (f : β → γ) {l₁ l₂ : List β} (h : l₁ <+~ l₂) :
    l₁.map f <+~ l₂.map f := by
  obtain ⟨u, hu, hs⟩ := h
  exact ⟨u.map f, hu.map f, hs.map f⟩

theorem getD_map_sq (r : List α) (i : ℕ) :
    (r.map fun v => v ^ 2).getD i 0 = (r.getD i 0) ^ 2 := by
  rcases lt_or_le i r.length with hi | hi
  · rw [List.getD_eq_getElem _ _ (by simpa using hi), List.getD_eq_getElem _ _ hi]
    simp
  · rw [List.getD_eq_default _ _ (by simpa using hi), List.getD_eq_default _ _ hi]
    norm_num

theorem getD_absList (r : List α) (i : ℕ) :
    (absList r).getD i 0 = |r.getD i 0| := by
  unfold absList
  rcases lt_or_le i r.length with hi | hi
  · rw [List.getD_eq_getElem _ _ (by simpa using hi), List.getD_eq_getElem _ _ hi]
    simp
  · rw [List.getD_eq_default _ _ (by simpa using hi), List.getD_eq_default _ _ hi]
    simp

theorem map_getD_range (l : List α) :
    (List.range l.length).map (fun i => l.getD i 0) = l := by
  apply List.ext_getElem
  · simp
  · intro i h1 h2
    simp only [List.getElem_map, List.getElem_range]
    exact List.getD_eq_getElem _ _ h2

theorem sum_take_cons_le (a : α) (s : List α) (hs : (a :: s).Sorted (· ≤ ·))
    (k : ℕ) (hk : k ≤ s.length) : ((a :: s).take k).sum ≤ (s.take k).sum := by
  cases k with
  | zero => simp
  | succ k =>
    have hk1 : k < s.length := hk
    rw [List.take_succ_cons, List.sum_cons, List.sum_take_succ _ _ hk1]
    have ha : a ≤ s[k] := List.rel_of_sorted_cons hs _ (List.getElem_mem hk1)
    linarith

theorem sorted_sum_take_le : ∀ {u s : List α}, u <+ s → s.Sorted (· ≤ ·) →
    (s.take u.length).sum ≤ u.sum := by
  intro u s hu
  induction hu with
  | slnil =>
    intro _
    simp
  | cons a h ih =>
    intro hs
    have h1 := ih hs.of_cons
    have h2 := sum_take_cons_le a _ hs _ h.length_le
    exact le_trans h2 h1
  | cons₂ a h ih =>
    intro hs
    rw [List.length_cons, List.take_succ_cons, List.sum_cons, List.sum_cons]
    have h3 := ih hs.of_cons
    linarith

theorem sum_take_sort_le_of_subperm {t l : List α} (h : t <+~ l) :
    ((l.insertionSort (· ≤ ·)).take t.length).sum ≤ t.sum := by
  have hps : l.insertionSort (· ≤ ·) ~ l := List.perm_insertionSort _ _
  have hpt : t.insertionSort (· ≤ ·) ~ t := List.perm_insertionSort _ _
  have hsub : t.insertionSort (· ≤ ·) <+~ l.insertionSort (· ≤ ·) :=
    (hpt.subperm.trans h).trans hps.symm.subperm
  have hsl : t.insertionSort (· ≤ ·) <+ l.insertionSort (· ≤ ·) :=
    List.sublist_of_subperm_of_sorted hsub (List.sorted_insertionSort _ _)
      (List.sorted_insertionSort _ _)
  have hmain := sorted_sum_take_le hsl (List.sorted_insertionSort _ _)
  rw [List.length_insertionSort] at hmain
  calc ((l.insertionSort (· ≤ ·)).take t.length).sum
      ≤ (t.insertionSort (· ≤ ·)).sum := hmain
    _ = t.sum := hpt.sum_eq

theorem map_sq_sort_abs (r : List α) :
    (((absList r).insertionSort (· ≤ ·)).map fun v => v ^ 2) =
      (r.map fun v => v ^ 2).insertionSort (· ≤ ·) := by
  apply List.eq_of_perm_of_sorted (r := (· ≤ ·))
  · calc ((absList r).insertionSort (· ≤ ·)).map (fun v => v ^ 2)
        ~ (absList r).map fun v => v ^ 2 := (List.perm_insertionSort _ _).map _
      _ = r.map fun v => v ^ 2 := by
          unfold absList
          rw [List.map_map]
          apply List.map_congr_left
          intro v _
          simp [sq_abs]
      _ ~ (r.map fun v => v ^ 2).insertionSort (· ≤ ·) :=
          (List.perm_insertionSort _ _).symm
  · have hsorted : ((absList r).insertionSort (· ≤ ·)).Pairwise (· ≤ ·) :=
      List.sorted_insertionSort _ _
    have hnn : ∀ v ∈ (absList r).insertionSort (· ≤ ·), (0 : α) ≤ v := by
      intro v hv
      have hv2 : v ∈ absList r := (List.mem_insertionSort _).mp hv
      obtain ⟨w, _, hw⟩ := List.mem_map.mp hv2
      rw [← hw]
      exact abs_nonneg w
    have hsq : ((absList r).insertionSort (· ≤ ·)).Pairwise fun a b => a ^ 2 ≤ b ^ 2 := by
      refine List.Pairwise.imp_of_mem ?_ hsorted
      intro a b ha hb hab
      exact pow_le_pow_left₀ (hnn a ha) hab 2
    exact List.pairwise_map.mpr hsq
  · exact List.sorted_insertionSort _ _

theorem map_snd_sortPairs (m : List α) :
    ((m.enum.insertionSort sndLe).map Prod.snd) = m.insertionSort (· ≤ ·) := by
  apply List.eq_of_perm_of_sorted (r := (· ≤ ·))
  · calc (m.enum.insertionSort sndLe).map Prod.snd
        ~ m.enum.map Prod.snd := (List.perm_insertionSort _ _).map _
      _ = m := by simp [List.enum_eq_enumFrom]
      _ ~ m.insertionSort (· ≤ ·) := (List.perm_insertionSort _ _).symm
  · have hsorted : (m.enum.insertionSort sndLe).Pairwise sndLe :=
      List.sorted_insertionSort _ _
    exact List.pairwise_map.mpr hsorted
  · exact List.sorted_insertionSort _ _

theorem getD_fst_eq_snd (m : List α) :
    ∀ pr ∈ m.enum.insertionSort sndLe, m.getD pr.1 0 = pr.2 := by
  intro pr hpr
  have hmem : pr ∈ m.enum := (List.mem_insertionSort _).mp hpr
  have hq : m[pr.1]? = some pr.2 := List.mem_enum_iff_getElem?.mp hmem
  rw [List.getD_eq_getD_get?, List.get?_eq_getElem?, hq]
  rfl

theorem map_getD_argsortAbs (r : List α) :
    (argsortAbs r).map (fun i => (absList r).getD i 0) =
      (absList r).insertionSort (· ≤ ·) := by
  unfold argsortAbs
  rw [List.map_map]
  have h1 : ((absList r).enum.insertionSort sndLe).map
      ((fun i => (absList r).getD i 0) ∘ Prod.fst)
      = ((absList r).enum.insertionSort sndLe).map Prod.snd :=
    List.map_congr_left fun pr hpr => getD_fst_eq_snd (absList r) pr hpr
  rw [h1, map_snd_sortPairs]

theorem argsortAbs_perm_range (r : List α) :
    argsortAbs r ~ List.range r.length := by
  unfold argsortAbs
  calc ((absList r).enum.insertionSort sndLe).map Prod.fst
      ~ (absList r).enum.map Prod.fst := (List.perm_insertionSort _ _).map _
    _ = List.range r.length := by
        rw [List.enum_eq_enumFrom, List.enumFrom_map_fst, ← List.range_eq_range']
        simp [absList]

theorem obsInSet_subperm (hsz : ℕ) (r : List α) :
    obsInSet hsz r <+~ List.range r.length := by
  unfold obsInSet
  have h1 : ((argsortAbs r).take hsz).insertionSort (· ≤ ·) ~ (argsortAbs r).take hsz :=
    List.perm_insertionSort _ _
  have h2 : (argsortAbs r).take hsz <+ argsortAbs r := List.take_sublist _ _
  exact (h1.subperm.trans h2.subperm).trans (argsortAbs_perm_range r).subperm

theorem length_residualsOf (X : List (List α)) (y z : List α) (hXy : X.length = y.length) :
    (residualsOf X y z).length = y.length := by
  simp [residualsOf, listSub, matVec, hXy]

theorem length_argsortAbs (r : List α) : (argsortAbs r).length = r.length := by
  simp [argsortAbs, absList]

theorem length_obsInSet (hsz : ℕ) (r : List α) (hh : hsz ≤ r.length) :
    (obsInSet hsz r).length = hsz := by
  unfold obsInSet
  rw [List.length_insertionSort, List.length_take, length_argsortAbs]
  exact min_eq_left hh

theorem sumSqResAt_obsInSet (hsz : ℕ) (X : List (List α)) (y z : List α) :
    sumSqResAt X y (obsInSet hsz (residualsOf X y z)) z = trimObj hsz X y z := by
  unfold sumSqResAt trimObj
  have hperm : obsInSet hsz (residualsOf X y z) ~ (argsortAbs (residualsOf X y z)).take hsz :=
    List.perm_insertionSort _ _
  rw [(hperm.map _).sum_eq]
  have h1 : (((argsortAbs (residualsOf X y z)).take hsz).map
      fun i => ((residualsOf X y z).getD i 0) ^ 2)
      = (((argsortAbs (residualsOf X y z)).take hsz).map
      ((fun v => v ^ 2) ∘ fun i => (absList (residualsOf X y z)).getD i 0)) := by
    apply List.map_congr_left
    intro i _
    simp only [Function.comp_apply]
    rw [getD_absList, sq_abs]
  rw [h1, ← List.map_map, List.map_take, map_getD_argsortAbs]

/-- Claim C1: one C-step (select the `h` observations of smallest absolute
residual under the current estimate `z`, then least-squares refit on them)
does not increase the trimmed objective, for every fixed `h` and every
starting estimate.  The external solver's defining property — the refit
does not do worse on its own selected rows than the previous iterate —
enters as the hypothesis `hfit`; everything else is proved.  Applied to the
iterates of the C-step loop this gives that the objective is non-increasing
across consecutive iterations. -/
theorem cstep_trimObj_nonincreasing (fit : Fit α) (hsz : ℕ) (X : List (List α)) (y z : List α)
    (hXy : X.length = y.length) (hh : hsz ≤ y.length)
    (hfit : sumSqResAt X y (obsInSet hsz (residualsOf X y z)) (cstepFit fit hsz X y z) ≤
            sumSqResAt X y (obsInSet hsz (residualsOf X y z)) z) :
    trimObj hsz X y (cstepFit fit hsz X y z) ≤ trimObj hsz X y z := by
  set z2 := cstepFit fit hsz X y z with hz2
  set H := obsInSet hsz (residualsOf X y z) with hHdef
  have hlr : (residualsOf X y z).length = y.length := length_residualsOf X y z hXy
  have hlr2 : (residualsOf X y z2).length = y.length := length_residualsOf X y z2 hXy
  have hHlen : H.length = hsz := by
    rw [hHdef]
    exact length_obsInSet hsz _ (by rw [hlr]; exact hh)
  have h1 : trimObj hsz X y z2 =
      ((((residualsOf X y z2).map fun v => v ^ 2).insertionSort (· ≤ ·)).take hsz).sum := by
    unfold trimObj
    rw [List.map_take, map_sq_sort_abs]
  have hsubH : H <+~ List.range (residualsOf X y z2).length := by
    rw [hlr2, ← hlr, hHdef]
    exact obsInSet_subperm hsz _
  have hsubt : (H.map fun i => ((residualsOf X y z2).map fun v => v ^ 2).getD i 0) <+~
      ((residualsOf X y z2).map fun v => v ^ 2) := by
    have h4 := subperm_map (fun i => ((residualsOf X y z2).map fun v => v ^ 2).getD i 0) hsubH
    have h5 : (List.range (residualsOf X y z2).length).map
        (fun i => ((residualsOf X y z2).map fun v => v ^ 2).getD i 0) =
        (residualsOf X y z2).map fun v => v ^ 2 := by
      have h6 := map_getD_range ((residualsOf X y z2).map fun v => v ^ 2)
      rwa [List.length_map] at h6
    rwa [h5] at h4
  have h6 := sum_take_sort_le_of_subperm hsubt
  rw [List.length_map, hHlen] at h6
  have h7 : (H.map fun i => ((residualsOf X y z2).map fun v => v ^ 2).getD i 0).sum =
      sumSqResAt X y H z2 := by
    unfold sumSqResAt
    congr 1
    apply List.map_congr_left
    intro i _
    exact getD_map_sq _ i
  have h8 : sumSqResAt X y H z = trimObj hsz X y z := by
    rw [hHdef]
    exact sumSqResAt_obsInSet hsz X y z
  calc trimObj hsz X y z2
      = ((((residualsOf X y z2).map fun v => v ^ 2).insertionSort (· ≤ ·)).take hsz).sum := h1
    _ ≤ (H.map fun i => ((residualsOf X y z2).map fun v => v ^ 2).getD i 0).sum := h6
    _ = sumSqResAt X y H z2 := h7
    _ ≤ sumSqResAt X y H z := hfit
    _ = trimObj hsz X y z := h8

theorem cstep_trimObj_nonincreasing_witness :
    (sumSqResAt [[(1 : ℚ)], [1], [1]] [1, 2, 3]
        (obsInSet 2 (residualsOf [[(1 : ℚ)], [1], [1]] [1, 2, 3] [0]))
        (cstepFit (fun _ _ => some [2]) 2 [[(1 : ℚ)], [1], [1]] [1, 2, 3] [0]) ≤
      sumSqResAt [[(1 : ℚ)], [1], [1]] [1, 2, 3]
        (obsInSet 2 (residualsOf [[(1 : ℚ)], [1], [1]] [1, 2, 3] [0])) [0]) ∧
    trimObj 2 [[(1 : ℚ)], [1], [1]] [1, 2, 3]
        (cstepFit (fun _ _ => some [2]) 2 [[(1 : ℚ)], [1], [1]] [1, 2, 3] [0]) ≤
      trimObj 2 [[(1 : ℚ)], [1], [1]] [1, 2, 3] [0] :=
  ⟨by with_unfolding_all decide,
    cstep_trimObj_nonincreasing (fun _ _ => some [2]) 2 [[(1 : ℚ)], [1], [1]] [1, 2, 3] [0]
      rfl (by decide) (by with_unfolding_all decide)⟩

/-! ## Pipeline branch lemmas and the remaining claims -/

theorem prepare_ok (X y : List (List α)) (alpha : ℚ)
    (h1 : X.length = y.length) (h2 : (y.headD []).length = 1)
    (h3 : 2 * (X.headD []).length < X.length) (h4 : ¬(alpha < 1 / 2 ∨ 1 < alpha)) :
    prepare X y alpha = .ok (prepareData X y alpha) := by
  unfold prepare
  rw [if_neg (not_not_intro h1), if_neg (not_not_intro h2), if_neg (not_le.mpr h3), if_neg h4]

/-- Claim C2: two calls with identical `X`, `y`, `alpha` and the same seed
policy return bit-identical results in every field (coefficients, scale,
flagged weights, fitted, residuals, rsquared, velocity, bazimuth).  The
source's seed policy is the constant internal seed `0` (line 63), threaded
explicitly through every draw; the deterministic library solver enters both
calls as the same `fit`.  The embedded call is a pure function of its
inputs — there is no hidden ambient state — so equal inputs give equal
outputs. -/
theorem fast_lts_array_deterministic (fit : Fit ℝ) (fuel : ℕ)
    (X1 y1 X2 y2 : List (List ℝ)) (a1 a2 : ℚ)
    (hX : X1 = X2) (hy : y1 = y2) (ha : a1 = a2) :
    fast_lts_array fit fuel X1 y1 a1 = fast_lts_array fit fuel X2 y2 a2 := by
  rw [hX, hy, ha]

theorem fast_lts_array_deterministic_witness :
    fast_lts_array (fun _ _ => none) 3 [[1], [2], [3]] [[1], [2], [3]] (3 / 4) =
      fast_lts_array (fun _ _ => none) 3 [[1], [2], [3]] [[1], [2], [3]] (3 / 4) :=
  fast_lts_array_deterministic (fun _ _ => none) 3 _ _ _ _ _ _ rfl rfl rfl

/-- Claim C8: the validator rejects, in the source's order, a row-count
mismatch, a `y` that is not a single column, and `n ≤ 2p` (the spec's
ShapeError class: the source's two `IndexError`s and one `ValueError`,
lines 74-79), and — with the shape checks passed — an `alpha` outside
`[0.5, 1]` fails with the DomainError before any fit is performed (the
range check lives in `hcalc`, called at line 89, modelled from the spec). -/
theorem validation_rejects [DecidableEq α] (sqrtF : α → α) (fit : Fit α) (fuel : ℕ)
    (X y : List (List α)) (alpha : ℚ) :
    (X.length ≠ y.length → runNumeric sqrtF fit fuel X y alpha = .error .rowMismatch) ∧
    (X.length = y.length → (y.headD []).length ≠ 1 →
      runNumeric sqrtF fit fuel X y alpha = .error .notColumn) ∧
    (X.length = y.length → (y.headD []).length = 1 →
      X.length ≤ 2 * (X.headD []).length →
      runNumeric sqrtF fit fuel X y alpha = .error .badN) ∧
    (X.length = y.length → (y.headD []).length = 1 →
      2 * (X.headD []).length < X.length → (alpha < 1 / 2 ∨ 1 < alpha) →
      runNumeric sqrtF fit fuel X y alpha = .error .alphaOutOfRange) := by
  refine ⟨?_, ?_, ?_, ?_⟩
  · intro h1
    unfold runNumeric prepare
    rw [if_pos h1]
  · intro h1 h2
    unfold runNumeric prepare
    rw [if_neg (not_not_intro h1), if_pos h2]
  · intro h1 h2 h3
    unfold runNumeric prepare
    rw [if_neg (not_not_intro h1), if_neg (not_not_intro h2), if_pos h3]
  · intro h1 h2 h3 h4
    unfold runNumeric prepare
    rw [if_neg (not_not_intro h1), if_neg (not_not_intro h2), if_neg (not_le.mpr h3),
      if_pos h4]

theorem validation_rejects_witness :
    runNumeric (fun v : ℚ => v) (fun _ _ => none) 3 [[1], [2], [3]] [[1], [2]] (3 / 4) =
        .error .rowMismatch ∧
    runNumeric (fun v : ℚ => v) (fun _ _ => none) 3 [[1], [2], [3]]
        [[1, 0], [2, 0], [3, 0]] (3 / 4) = .error .notColumn ∧
    runNumeric (fun v : ℚ => v) (fun _ _ => none) 3 [[1, 2], [2, 3], [3, 4]]
        [[1], [2], [3]] (3 / 4) = .error .badN ∧
    runNumeric (fun v : ℚ => v) (fun _ _ => none) 3 [[1], [2], [3]] [[1], [2], [3]] 2 =
        .error .alphaOutOfRange :=
  ⟨(validation_rejects (fun v : ℚ => v) (fun _ _ => none) 3 _ _ _).1 (by decide),
    (validation_rejects (fun v : ℚ => v) (fun _ _ => none) 3 _ _ _).2.1 rfl (by decide),
    (validation_rejects (fun v : ℚ => v) (fun _ _ => none) 3 _ _ _).2.2.1 rfl rfl (by decide),
    (validation_rejects (fun v : ℚ => v) (fun _ _ => none) 3 _ _ _).2.2.2 rfl rfl (by decide)
      (by with_unfolding_all decide)⟩

/-- Claim C5: with valid shapes and `alpha = 1.0` the call bypasses the
randomized search entirely and returns the single ordinary least squares
fit over all `n` points (source lines 129-132 into the spec-modelled
`least_squares_fit`), with all `n` weights true, the scale derived from
the OLS residuals, and the same output schema (`NumRes`) as the general
path. -/
theorem alpha_one_ols_path [DecidableEq α] (sqrtF : α → α) (fit : Fit α) (fuel : ℕ)
    (X y : List (List α))
    (h1 : X.length = y.length) (h2 : (y.headD []).length = 1)
    (h3 : 2 * (X.headD []).length < X.length) :
    runNumeric sqrtF fit fuel X y 1 = .ok (least_squares_fit sqrtF fit (prepareData X y 1)) ∧
    (least_squares_fit sqrtF fit (prepareData X y 1)).flagged =
      List.replicate X.length true := by
  constructor
  · unfold runNumeric
    rw [prepare_ok X y 1 h1 h2 h3 (by norm_num)]
    show (if (1 : ℚ) = 1 then Except.ok (least_squares_fit sqrtF fit (prepareData X y 1))
      else searchAndPost sqrtF fit fuel (prepareData X y 1)) =
      Except.ok (least_squares_fit sqrtF fit (prepareData X y 1))
    rw [if_pos rfl]
  · rfl

theorem alpha_one_ols_path_witness :
    runNumeric (fun v : ℚ => v) (fun _ _ => some [1]) 0 [[1], [2], [3]] [[1], [2], [3]] 1 =
      .ok (least_squares_fit (fun v : ℚ => v) (fun _ _ => some [1])
        (prepareData [[1], [2], [3]] [[1], [2], [3]] 1)) ∧
    (least_squares_fit (fun v : ℚ => v) (fun _ _ => some [1])
        (prepareData [[1], [2], [3]] [[1], [2], [3]] 1)).flagged =
      List.replicate 3 true :=
  alpha_one_ols_path (fun v : ℚ => v) (fun _ _ => some [1]) 0 [[1], [2], [3]] [[1], [2], [3]]
    rfl rfl (by decide)

theorem drawLoop_none (fit : Fit α) (Xs : List (List α)) (ys : List α) (n p : ℕ)
    (hfit : ∀ A b, fit A b = none) :
    ∀ fuel seed, drawLoop fit Xs ys n p fuel seed = none := by
  intro fuel
  induction fuel with
  | zero => intro seed; rfl
  | succ k ih =>
    intro seed
    simp only [drawLoop, hfit]
    exact ih _

theorem coarseLoop_succ [DecidableEq α] (fit : Fit α) (fuel hsz : ℕ)
    (Xs : List (List α)) (ys : List α) (k : ℕ) (st : Except Unit (Pool α × ℕ)) :
    coarseLoop fit fuel hsz Xs ys (k + 1) st =
      coarseLoop fit fuel hsz Xs ys k (coarseStep fit fuel hsz Xs ys st) :=
  rfl

theorem coarseLoop_error [DecidableEq α] (fit : Fit α) (fuel hsz : ℕ)
    (Xs : List (List α)) (ys : List α) :
    ∀ k, coarseLoop fit fuel hsz Xs ys k (.error ()) = .error () := by
  intro k
  induction k with
  | zero => rfl
  | succ k ih =>
    simp only [coarseLoop, coarseStep]
    exact ih

/-- Claim C6 theorem (the code evaluated at the failing input): on a design
whose elemental subsets all fail to produce a finite exact fit (the fully
rank-deficient case, `fit ≡ none`), the redraw loop of source lines 158-164
never exits: for EVERY fuel bound the embedded call has not terminated and
no `SingularSubsetError` is raised — indeed no such error exists in the
code (`LtsErr` carries none); the source only prints `'X is singular!!'`
(lines 84-86) and re-draws forever. -/
theorem singular_design_spins_forever [DecidableEq α] (sqrtF : α → α) (fit : Fit α)
    (X y : List (List α)) (alpha : ℚ)
    (h1 : X.length = y.length) (h2 : (y.headD []).length = 1)
    (h3 : 2 * (X.headD []).length < X.length)
    (h4 : 1 / 2 ≤ alpha) (h5 : alpha < 1)
    (hfit : ∀ A b, fit A b = none) :
    ∀ fuel, runNumeric sqrtF fit fuel X y alpha = .error .fuelExhausted := by
  intro fuel
  unfold runNumeric
  rw [prepare_ok X y alpha h1 h2 h3 (by push_neg; exact ⟨h4, h5.le⟩)]
  show (if alpha = 1 then Except.ok (least_squares_fit sqrtF fit (prepareData X y alpha))
    else searchAndPost sqrtF fit fuel (prepareData X y alpha)) =
    Except.error LtsErr.fuelExhausted
  rw [if_neg (ne_of_lt h5)]
  have hstep : coarseStep fit fuel (prepareData X y alpha).hsize (prepareData X y alpha).Xs
      (prepareData X y alpha).ys (.ok ([], 0)) = .error () := by
    simp only [coarseStep]
    rw [drawLoop_none fit _ _ _ _ hfit fuel 0]
  have hc : coarsePhase fit fuel (prepareData X y alpha).hsize (prepareData X y alpha).Xs
      (prepareData X y alpha).ys = .error () := by
    unfold coarsePhase
    rw [show (500 : ℕ) = 499 + 1 from rfl, coarseLoop_succ, hstep]
    exact coarseLoop_error fit fuel _ _ _ 499
  unfold searchAndPost
  rw [hc]

theorem singular_design_spins_forever_witness :
    runNumeric (fun v : ℚ => v) (fun _ _ => none) 9 [[1], [2], [3]] [[1], [2], [3]] (3 / 4) =
      .error .fuelExhausted :=
  singular_design_spins_forever (fun v : ℚ => v) (fun _ _ => none)
    [[1], [2], [3]] [[1], [2], [3]] (3 / 4) rfl rfl (by decide)
    (by with_unfolding_all decide) (by with_unfolding_all decide) (fun _ _ => rfl) 9

/-- Claim C7 theorem (the code evaluated at the failing input): on a
response column that is identically zero both the robust column scale
(`1.4826 ×` median absolute value) and its mean-absolute-value fallback
are zero, yet the embedded validator returns success: the source only
prints `'ERROR: The MAD of some variable is zero!'` (line 109) and
proceeds to standardize by the zero scale; no `DegenerateColumnError`
exists in the code. -/
theorem degenerate_column_proceeds :
    isOkE (prepare (α := ℚ) [[1], [2], [3]] [[0], [0], [0]] (3 / 4)) = true ∧
    (prepareData (α := ℚ) [[1], [2], [3]] [[0], [0], [0]] (3 / 4)).madWarning = true ∧
    (prepareData (α := ℚ) [[1], [2], [3]] [[0], [0], [0]] (3 / 4)).datamad.getD 1 0 = 0 := by
  with_unfolding_all decide

/-- Claim C4: whenever the corrected raw scale estimate is below the
tolerance `1e-7`, post-processing takes the exact-fit branch (source lines
231-238): the reported scale is exactly `0`, the returned weight vector is
the indicator of `|residual| < 1e-7`, and the reweighting/weighted-refit
step is skipped entirely — the result does not depend on the solver at
all. -/
theorem exactFit_branch (sqrtF : α → α) (fit : Fit α) (pd : Prep α) (coeffs : List α)
    (h : |rawScale sqrtF pd (postResiduals pd coeffs)| < 1 / 10 ^ 7) :
    (postProcess sqrtF fit pd coeffs).scale = 0 ∧
    (postProcess sqrtF fit pd coeffs).flagged =
      (postResiduals pd coeffs).map (fun r => decide (|r| < (1 / 10 ^ 7 : α))) ∧
    ∀ fit2 : Fit α, postProcess sqrtF fit2 pd coeffs = postProcess sqrtF fit pd coeffs := by
  have hb : ∀ g : Fit α, postProcess sqrtF g pd coeffs =
      ⟨coeffs, 0, (postResiduals pd coeffs).map (fun r => decide (|r| < (1 / 10 ^ 7 : α))),
        matVec pd.xorig coeffs, postResiduals pd coeffs,
        rsquaredOf pd (postResiduals pd coeffs), pd.xorig, pd.yorig⟩ := by
    intro g
    unfold postProcess
    rw [if_pos h]
  refine ⟨by rw [hb fit], by rw [hb fit], fun fit2 => by rw [hb fit2, hb fit]⟩

theorem exactFit_branch_witness :
    (|rawScale (fun v : ℚ => v) pd4c (postResiduals pd4c [1])| < 1 / 10 ^ 7) ∧
    ((postProcess (fun v : ℚ => v) (fun _ _ => some [1]) pd4c [1]).scale = 0 ∧
      (postProcess (fun v : ℚ => v) (fun _ _ => some [1]) pd4c [1]).flagged =
        (postResiduals pd4c [1]).map (fun r => decide (|r| < (1 / 10 ^ 7 : ℚ))) ∧
      ∀ fit2 : Fit ℚ, postProcess (fun v : ℚ => v) fit2 pd4c [1] =
        postProcess (fun v : ℚ => v) (fun _ _ => some [1]) pd4c [1]) :=
  ⟨by with_unfolding_all decide,
    exactFit_branch (fun v : ℚ => v) (fun _ _ => some [1]) pd4c [1]
      (by with_unfolding_all decide)⟩

/-- Claim C9 theorem (the code evaluated at the failing input): with exactly
one point flagged by the standard-normal quantile test, the source reaches
the reweighted-scale computation and divides by `sum(weights2) - 1 = 0`
with no guard (lines 256-257) and proceeds to return a result — numpy
produces a non-finite scale, not an exception; no
`InsufficientInliersError` exists in the code.  In the rational model the
division by the zero denominator yields scale `0` and the call still
succeeds. -/
theorem reweight_zero_denominator :
    (rewDenom (rewWeights
        (rawScale (fun v : ℚ => v) pd9c (postResiduals pd9c [0]))
        (postResiduals pd9c [0])) : ℚ) = 0 ∧
    (postProcess (fun v : ℚ => v) (fun _ _ => some [0]) pd9c [0]).scale = 0 := by
  with_unfolding_all decide

end LtsArray
